import Mathlib

/-!
Verification of the CodeState repository (HenryLok0/CodeState) against its
natural-language specification.

The development shallowly embeds the two Python sources that the claims
reference:
  * tools/codestate_pr_report.py — the standalone PR reporter
    (SUPPORTED_EXTS, list_changed_files, estimate_comment_lines,
    COMPLEXITY_TOKENS, estimate_complexity, count_functions, read_lines,
    analyze_files);
  * codestate/cli.py — the per-file detail header list and the
    contributor workload score/percent computation.

Modelling conventions:
  * a text line is a `List Char`; a file is a `List (List Char)`;
  * Python string operations (strip, lower, startswith, endswith,
    substring membership) are reimplemented on `List Char`; Python's
    whitespace set and case mapping are modelled on their ASCII fragment,
    which covers every input appearing in the theorems below;
  * the filesystem is a function `List Char → Option (List (List Char))`
    giving the decoded lines of a readable file, `none` when the file
    cannot be read even under the fallback decoding (read_lines then
    yields the empty list);
  * Python float arithmetic in the workload computation is modelled over
    `ℚ`, the standard idealisation of the numeric content of the code.
-/

namespace CodeState

/-- Python `str.strip` whitespace test, restricted to the ASCII whitespace
characters (space, tab, newline, carriage return, vertical tab, form feed). -/
def isSpaceChar (c : Char) : Bool :=
  c = ' ' || c = '\t' || c = '\n' || c = '\r' || c = Char.ofNat 11 || c = Char.ofNat 12

/-- Python `str.strip()`: remove whitespace from both ends of a line. -/
def stripL (s : List Char) : List Char :=
  ((s.dropWhile isSpaceChar).reverse.dropWhile isSpaceChar).reverse

/-- Python `str.lower()` on the ASCII fragment. -/
def lowerL (s : List Char) : List Char :=
  s.map Char.toLower

/-- Python `s.startswith(tok)`. -/
def startsW (s tok : List Char) : Bool :=
  tok.isPrefixOf s

/-- Python `s.endswith(tok)`. -/
def endsW (s tok : List Char) : Bool :=
  tok.isSuffixOf s

/-- Python `tok in s`: `tok` occurs as a contiguous substring of `s`. -/
def hasSub (tok s : List Char) : Bool :=
  match s with
  | [] => tok.isEmpty
  | _ :: rest => tok.isPrefixOf s || hasSub tok rest

/-- Number of positions of `s` at which `tok` starts (occurrences of a
substring, overlapping occurrences counted separately). Used only to state
what the specification's "number of occurrences" would compute. -/
def occCount (tok : List Char) (s : List Char) : Nat :=
  match s with
  | [] => 0
  | _ :: rest => (if tok.isPrefixOf s then 1 else 0) + occCount tok rest

/-- The ASCII single-quote character, written by code point to keep every
string literal in this file quote-free. -/
def sq : Char := Char.ofNat 39

/-- The ASCII double-quote character, written by code point. -/
def dq : Char := Char.ofNat 34

/-- Python triple single quote. -/
def tripleSq : List Char := [sq, sq, sq]

/-- Python triple double quote. -/
def tripleDq : List Char := [dq, dq, dq]

/-! ## estimate_comment_lines (tools/codestate_pr_report.py lines 59-94) -/

/-- The `block_end` set of `estimate_comment_lines`. -/
def blockEndToks : List (List Char) :=
  ["*/".toList, tripleSq, tripleDq]

/-- One iteration of the loop body of `estimate_comment_lines`.  The state is
`(in_block, comment)`; `isPy` records whether the (lowercased) extension is
`.py`.  Mirrors tools/codestate_pr_report.py lines 65-93. -/
def eclStep (isPy : Bool) (st : Bool × Nat) (raw : List Char) : Bool × Nat :=
  let s := stripL raw
  if s.isEmpty then st
  else if st.1 then
    (if blockEndToks.any (fun t => hasSub t s) then false else true, st.2 + 1)
  else if isPy then
    if startsW s ['#'] then (st.1, st.2 + 1)
    else if startsW s tripleSq || startsW s tripleDq then
      (if endsW s tripleSq || endsW s tripleDq then false else true, st.2 + 1)
    else st
  else
    if startsW s ['/', '/'] then (st.1, st.2 + 1)
    else if startsW s ['/', '*'] || startsW s "<!--".toList then (true, st.2 + 1)
    else st

/-- `estimate_comment_lines(ext, lines)`: the extension is lowercased, then the
state machine runs over all lines starting from `Normal` (`in_block = False`)
with comment count 0. -/
def estimateCommentLines (ext : List Char) (lines : List (List Char)) : Nat :=
  (lines.foldl (eclStep (lowerL ext == ".py".toList)) (false, 0)).2

/-! ## estimate_complexity (tools/codestate_pr_report.py lines 103-121) -/

/-- `COMPLEXITY_TOKENS` from tools/codestate_pr_report.py lines 103-106. -/
def COMPLEXITY_TOKENS : List (List Char) :=
  [" if ", " for ", " while ", " case ", " when ", " elif ", " switch ",
   " catch ", " try ", "&&", "||", "?:", "?", " await ", " async ",
   " yield ", " except ", " with ", " and ", " or "].map String.toList

/-- The padded lowered line `f" {raw.strip()} ".lower()` scanned by
`estimate_complexity`. -/
def padLower (raw : List Char) : List Char :=
  lowerL ((' ' :: stripL raw) ++ [' '])

/-- The contribution of one line: `sum(1 for tok in COMPLEXITY_TOKENS if tok in s)`,
i.e. each token of the vocabulary counts at most once per line. -/
def lineComplexity (raw : List Char) : Nat :=
  COMPLEXITY_TOKENS.countP (fun tok => hasSub tok (padLower raw))

/-- `estimate_complexity(lines)` (the score before the final `float()` cast,
which is modelled by keeping the exact natural number). -/
def estimateComplexity (lines : List (List Char)) : Nat :=
  lines.foldl (fun score raw => score + lineComplexity raw) 0

/-! ## Field lists of the per-file records

`detailsHeaders` is the per-file detail header list that codestate/cli.py
uses for every per-file table and CSV/Excel export (lines 250, 257, 264,
614, 946): these are the structured fields of the main engine's per-file
records.  `prFileFields` is the key list of the per-file dict literal built
by `analyze_files` in tools/codestate_pr_report.py lines 146-153. -/

/-- The main engine's per-file record fields (codestate/cli.py line 257). -/
def detailsHeaders : List String :=
  ["path", "ext", "total_lines", "comment_lines", "function_count", "complexity",
   "function_avg_length", "todo_count", "blank_lines", "comment_only_lines", "code_lines"]

/-- The keys of the per-file dict emitted by `analyze_files`
(tools/codestate_pr_report.py lines 146-153). -/
def prFileFields : List String :=
  ["file", "ext", "total_lines", "comment_lines", "function_count", "complexity"]

end CodeState

namespace CodeState

/-! ## Claim C1 -/

/-- C1 counterexample: the claim that `analyze_files` emits the same
structured fields as the main engine's per-file records (path, ext,
total_lines, comment_lines, function_count, complexity,
function_avg_length, todo_count, blank_lines, comment_only_lines,
code_lines) is false: the reporter's record lacks `function_avg_length`,
`todo_count`, `blank_lines`, `comment_only_lines` and `code_lines`, all of
which the engine's records carry. -/
theorem c1_counterexample :
    prFileFields ≠ detailsHeaders ∧
    "function_avg_length" ∈ detailsHeaders ∧ "function_avg_length" ∉ prFileFields ∧
    "todo_count" ∈ detailsHeaders ∧ "todo_count" ∉ prFileFields ∧
    "blank_lines" ∈ detailsHeaders ∧ "blank_lines" ∉ prFileFields ∧
    "comment_only_lines" ∈ detailsHeaders ∧ "comment_only_lines" ∉ prFileFields ∧
    "code_lines" ∈ detailsHeaders ∧ "code_lines" ∉ prFileFields := by
  decide

/-- C1 amended: the per-file record emitted by `analyze_files` carries only
the fields file, ext, total_lines, comment_lines, function_count and
complexity — a proper subset of the main engine's per-file fields, with the
key `file` in place of the engine's `path`; the engine fields
function_avg_length, todo_count, blank_lines, comment_only_lines and
code_lines are absent, so the two outputs are not field-for-field
interchangeable. -/
theorem c1_amended_fields :
    prFileFields.filter (fun k => !(detailsHeaders.contains k)) = ["file"] ∧
    detailsHeaders.filter (fun k => !(prFileFields.contains k)) =
      ["path", "function_avg_length", "todo_count", "blank_lines",
       "comment_only_lines", "code_lines"] := by
  decide

/-! ## Claim C2 -/

/-- C2 counterexample: the line `/* x */` carries both the block-comment
start token and the end token, yet in `Normal` state (for a C-family
extension) the classifier still transitions to `InBlockComment`, so the
following code line `y = 1` is counted as a comment: the file yields
comment count 2, where the claim predicts 1 and a return to `Normal`. -/
theorem c2_counterexample :
    hasSub "/*".toList (stripL "/* x */".toList) = true ∧
    hasSub "*/".toList (stripL "/* x */".toList) = true ∧
    (eclStep false (false, 0) "/* x */".toList).1 = true ∧
    estimateCommentLines ".js".toList ["/* x */".toList, "y = 1".toList] = 2 := by
  decide

/-- Inverting a two-character `isPrefixOf`. -/
theorem isPrefixOf_pair {a b : Char} {x : List Char}
    (h : [a, b].isPrefixOf x = true) : ∃ t, x = a :: b :: t := by
  rw [List.isPrefixOf_iff_prefix] at h
  obtain ⟨t, ht⟩ := h
  exact ⟨t, ht.symm⟩

/-- Inverting a three-character `isPrefixOf`. -/
theorem isPrefixOf_three {a b c : Char} {x : List Char}
    (h : [a, b, c].isPrefixOf x = true) : ∃ t, x = a :: b :: c :: t := by
  rw [List.isPrefixOf_iff_prefix] at h
  obtain ⟨t, ht⟩ := h
  exact ⟨t, ht.symm⟩

/-- C2 amended: in `Normal` state a non-blank line that starts with a
block-comment-start token is counted as comment, but the transition is
family-dependent: for Python files the classifier enters `InBlockComment`
exactly when the line does not also end with a triple-quote token (so a
one-line docstring stays in `Normal` and a following code line counts as
code), while for every non-Python file a line starting with `/*` always
enters `InBlockComment`, even when the block-end token appears on the same
line. -/
theorem c2_amended (c : Nat) (s : List Char) :
    (startsW (stripL s) ['/', '*'] = true →
      eclStep false (false, c) s = (true, c + 1)) ∧
    ((startsW (stripL s) tripleSq || startsW (stripL s) tripleDq) = true →
      (endsW (stripL s) tripleSq || endsW (stripL s) tripleDq) = true →
      eclStep true (false, c) s = (false, c + 1)) ∧
    ((startsW (stripL s) tripleSq || startsW (stripL s) tripleDq) = true →
      (endsW (stripL s) tripleSq || endsW (stripL s) tripleDq) = false →
      eclStep true (false, c) s = (true, c + 1)) := by
  refine ⟨?_, ?_, ?_⟩
  · intro h
    obtain ⟨t, ht⟩ := isPrefixOf_pair h
    simp only [eclStep, startsW, ht]
    simp [List.isPrefixOf]
  · intro h he
    rcases Bool.or_eq_true_iff.mp h with h1 | h1
    · obtain ⟨t, ht⟩ := isPrefixOf_three h1
      simp only [eclStep, startsW, endsW, ht] at *
      simp_all [List.isPrefixOf, sq, dq]
    · obtain ⟨t, ht⟩ := isPrefixOf_three h1
      simp only [eclStep, startsW, endsW, ht] at *
      simp_all [List.isPrefixOf, sq, dq]
  · intro h he
    rcases Bool.or_eq_true_iff.mp h with h1 | h1
    · obtain ⟨t, ht⟩ := isPrefixOf_three h1
      simp only [eclStep, startsW, endsW, ht] at *
      simp_all [List.isPrefixOf, sq, dq]
    · obtain ⟨t, ht⟩ := isPrefixOf_three h1
      simp only [eclStep, startsW, endsW, ht] at *
      simp_all [List.isPrefixOf, sq, dq]

/-- C2 amended, witness: concrete instances of all three behaviours. -/
theorem c2_amended_witness :
    eclStep false (false, 0) "/* x */".toList = (true, 1) ∧
    eclStep true (false, 0) (tripleSq ++ "doc".toList ++ tripleSq) = (false, 1) ∧
    eclStep true (false, 0) (tripleSq ++ "doc".toList) = (true, 1) :=
  ⟨(c2_amended 0 ("/* x */".toList)).1 (by decide),
   (c2_amended 0 (tripleSq ++ "doc".toList ++ tripleSq)).2.1 (by decide) (by decide),
   (c2_amended 0 (tripleSq ++ "doc".toList)).2.2 (by decide) (by decide)⟩

/-! ## Claim C3 -/

/-- C3 counterexample: the claim that the score sums the number of
occurrences of each token on each code line, with comment lines
contributing nothing, is false on both counts.  The code line
`if a then if b` contains the token ` if ` twice (2 occurrences), yet
contributes only 1 because `estimate_complexity` tests token membership,
not occurrence count; and the pure comment line `# while x` of a Python
file (counted as a comment by the classifier) still contributes 1. -/
theorem c3_counterexample :
    estimateComplexity ["if a then if b".toList] = 1 ∧
    (COMPLEXITY_TOKENS.map
      (fun tok => occCount tok (padLower "if a then if b".toList))).sum = 2 ∧
    estimateCommentLines ".py".toList ["# while x".toList] = 1 ∧
    estimateComplexity ["# while x".toList] = 1 := by
  decide

/-- C3 amended: the complexity score is a non-negative count (cast to float
by the source) equal to the sum, over all lines of the file — code and
comment lines alike — of the number of distinct vocabulary tokens that
occur as substrings of the space-padded, lowercased, trimmed line; each
token contributes at most 1 per line however many times it occurs. -/
theorem c3_amended (lines : List (List Char)) :
    estimateComplexity lines = (lines.map lineComplexity).sum := by
  suffices h : ∀ a, lines.foldl (fun score raw => score + lineComplexity raw) a =
      a + (lines.map lineComplexity).sum by
    simpa [estimateComplexity] using h 0
  induction lines with
  | nil => simp
  | cons hd tl ih => intro a; simp [ih, add_assoc]

/-! ## Path suffixes and list_changed_files
(tools/codestate_pr_report.py lines 27-56) -/

/-- The final path component (`pathlib.PurePath.name` for the
slash-separated relative paths that `git diff --name-only` emits). -/
def pathName (f : List Char) : List Char :=
  f.foldl (fun acc c => if c = '/' then [] else acc ++ [c]) []

/-- `pathlib.PurePath.suffix`: the part of the name from its last dot,
empty when the last dot is the first or the last character of the name. -/
def pathSuffix (f : List Char) : List Char :=
  let name := pathName f
  match (name.enum.filter (fun ic => ic.2 = '.')).getLast? with
  | some (i, _) => if 0 < i ∧ i + 1 < name.length then name.drop i else []
  | none => []

/-- `SUPPORTED_EXTS` from tools/codestate_pr_report.py lines 27-33. -/
def SUPPORTED_EXTS : List (List Char) :=
  [".py", ".js", ".ts", ".jsx", ".tsx", ".mjs", ".cjs",
   ".java", ".c", ".h", ".cpp", ".hpp", ".cc", ".cs", ".go", ".rb", ".php",
   ".rs", ".kt", ".swift",
   ".m", ".mm", ".scala", ".sh", ".bash", ".zsh", ".ps1", ".psm1", ".pl",
   ".pm", ".r", ".jl", ".lua",
   ".ex", ".exs", ".hs", ".erl", ".clj", ".groovy", ".dart", ".sql", ".css",
   ".scss", ".sass", ".less",
   ".html", ".vue", ".svelte", ".hbs", ".ejs", ".jinja", ".jinja2", ".njk"].map String.toList

/-- `list_changed_files` after the `git diff` subprocess: `diffOut` is the
list of output lines, `exists_` and `isFile` model `Path.exists` and
`Path.is_file` on the working tree.  Lines are stripped, blank lines are
dropped, and a path is kept only when its lowercased suffix is in
`SUPPORTED_EXTS` and it is an existing regular file
(tools/codestate_pr_report.py lines 49-56; the `str(Path(f))` round-trip is
the identity on the already-normalised names git emits). -/
def listChangedFiles (diffOut : List (List Char))
    (exists_ isFile : List Char → Bool) : List (List Char) :=
  let files := (diffOut.map stripL).filter (fun l => !l.isEmpty)
  files.filter (fun f =>
    SUPPORTED_EXTS.contains (lowerL (pathSuffix f)) && exists_ f && isFile f)

/-! ## count_functions (tools/codestate_pr_report.py lines 97-113)

The three `FUNC_PATTERNS` regular expressions are embedded as explicit
matchers over `List Char`.  Each matcher receives the word-character status
of the preceding character (for `\b`) and the remaining input, and returns
the word-character status of the last matched character together with the
number of characters consumed.  Because the character classes `\s` and `\w`
are disjoint, the greedy runs of these patterns never backtrack, so
maximal-run matching is exactly the regex semantics; `re.findall` counting
is the usual left-to-right non-overlapping scan. -/

/-- The `\w` class (ASCII fragment of Python `re`). -/
def isWordChar (c : Char) : Bool :=
  c.isAlpha || c.isDigit || c = '_'

/-- Case-insensitive literal prefix test (`re.I`); `lit` is lowercase. -/
def ciPrefix (lit s : List Char) : Bool :=
  lit.isPrefixOf (lowerL s)

/-- Length of the maximal run of characters satisfying `p`. -/
def spanLen (p : Char → Bool) (s : List Char) : Nat :=
  (s.takeWhile p).length

/-- Matcher for the first pattern `\bdef\s+\w+\s*\(` (re.I). -/
def pat1 (prevW : Bool) (s : List Char) : Option (Bool × Nat) :=
  if prevW then none
  else if ciPrefix "def".toList s then
    let r1 := s.drop 3
    let ns := spanLen isSpaceChar r1
    if ns = 0 then none
    else
      let r2 := r1.drop ns
      let nw := spanLen isWordChar r2
      if nw = 0 then none
      else
        let r3 := r2.drop nw
        let ns2 := spanLen isSpaceChar r3
        match r3.drop ns2 with
        | '(' :: _ => some (false, 3 + ns + nw + ns2 + 1)
        | _ => none
  else none

/-- Matcher for the second pattern `\bfunction\b|=>\s*\(` (re.I). -/
def pat2 (prevW : Bool) (s : List Char) : Option (Bool × Nat) :=
  if !prevW && ciPrefix "function".toList s &&
      (match s.drop 8 with
       | [] => true
       | c :: _ => !isWordChar c) then
    some (true, 8)
  else if ciPrefix "=>".toList s then
    let r := s.drop 2
    let ns := spanLen isSpaceChar r
    match r.drop ns with
    | '(' :: _ => some (false, 2 + ns + 1)
    | _ => none
  else none

/-- Matcher for the third pattern `\b(class|interface)\s+\w+\b` (re.I);
the trailing `\b` after a maximal `\w+` run always holds. -/
def pat3 (prevW : Bool) (s : List Char) : Option (Bool × Nat) :=
  if prevW then none
  else
    let kwLen : Nat :=
      if ciPrefix "class".toList s then 5
      else if ciPrefix "interface".toList s then 9
      else 0
    if kwLen = 0 then none
    else
      let r := s.drop kwLen
      let ns := spanLen isSpaceChar r
      if ns = 0 then none
      else
        let r2 := r.drop ns
        let nw := spanLen isWordChar r2
        if nw = 0 then none else some (true, kwLen + ns + nw)

/-- `re.findall` counting with explicit fuel for structural recursion:
scan left to right, counting non-overlapping matches of `m` and resuming
after each match.  Every matcher above consumes at least one character on
success, so the `max n 1` guard never alters the scan, and each step
shortens the input by at least one character while spending one unit of
fuel — fuel equal to the input length (as supplied by `countPat`) is
therefore never exhausted before the input is. -/
def countPatFuel (m : Bool → List Char → Option (Bool × Nat)) :
    Nat → Bool → List Char → Nat
  | 0, _, _ => 0
  | _ + 1, _, [] => 0
  | fuel + 1, prevW, c :: cs =>
    match m prevW (c :: cs) with
    | some (w, n) => 1 + countPatFuel m fuel w ((c :: cs).drop (max n 1))
    | none => countPatFuel m fuel (isWordChar c) cs

/-- `len(pat.findall(s))` for one compiled pattern. -/
def countPat (m : Bool → List Char → Option (Bool × Nat))
    (prevW : Bool) (s : List Char) : Nat :=
  countPatFuel m s.length prevW s

/-- `count_functions(text)`: the sum of the three patterns' match counts
over the whole text. -/
def countFunctions (text : List Char) : Nat :=
  countPat pat1 false text + countPat pat2 false text + countPat pat3 false text

/-! ## read_lines and analyze_files
(tools/codestate_pr_report.py lines 124-163) -/

/-- `read_lines(path)`: the filesystem `fs` yields the decoded lines of a
readable file; both decoding attempts failing is `fs f = none`, in which
case the function returns the empty list.  The function is total — no
exception escapes. -/
def readLines (fs : List Char → Option (List (List Char))) (f : List Char) :
    List (List Char) :=
  (fs f).getD []

/-- `p.suffix.lower() or '<none>'` from analyze_files. -/
def extOf (f : List Char) : List Char :=
  let s := lowerL (pathSuffix f)
  if s.isEmpty then "<none>".toList else s

/-- The per-file dict built by `analyze_files` for one file
(tools/codestate_pr_report.py lines 146-153); its keys are `prFileFields`. -/
structure PerFile where
  file : List Char
  ext : List Char
  total_lines : Nat
  comment_lines : Nat
  function_count : Nat
  complexity : Nat
deriving DecidableEq

/-- The per-extension aggregate dict of `analyze_files`
(tools/codestate_pr_report.py lines 155-162). -/
structure ExtAgg where
  ext : List Char
  file_count : Nat
  total_lines : Nat
  comment_lines : Nat
  function_count : Nat
deriving DecidableEq

/-- The per-file record computed in one iteration of `analyze_files`. -/
def mkPerFile (fs : List Char → Option (List (List Char))) (f : List Char) :
    PerFile :=
  let ext := extOf f
  let lines := readLines fs f
  { file := f
    ext := ext
    total_lines := lines.length
    comment_lines := estimateCommentLines ext lines
    function_count := countFunctions (List.intercalate ['\n'] lines)
    complexity := estimateComplexity lines }

/-- The fresh aggregate `setdefault` inserts for a new extension, already
incremented by the record's metrics
(tools/codestate_pr_report.py lines 155-162). -/
def initAgg (pf : PerFile) : ExtAgg :=
  { ext := pf.ext, file_count := 1, total_lines := pf.total_lines,
    comment_lines := pf.comment_lines, function_count := pf.function_count }

/-- The four `+=` updates applied to an existing aggregate. -/
def addAgg (a : ExtAgg) (pf : PerFile) : ExtAgg :=
  { a with file_count := a.file_count + 1,
           total_lines := a.total_lines + pf.total_lines,
           comment_lines := a.comment_lines + pf.comment_lines,
           function_count := a.function_count + pf.function_count }

/-- `by_ext.setdefault(ext, …)` followed by the four `+=` updates: the
first aggregate with the record's extension is updated in place; when none
exists a fresh aggregate is appended (Python dicts preserve insertion
order). -/
def bumpExt (l : List ExtAgg) (pf : PerFile) : List ExtAgg :=
  match l with
  | [] => [initAgg pf]
  | a :: rest =>
    if a.ext = pf.ext then addAgg a pf :: rest
    else a :: bumpExt rest pf

/-- The loop of `analyze_files`, with the two accumulators explicit. -/
def analyzeGo (fs : List Char → Option (List (List Char))) :
    List (List Char) → List ExtAgg → List PerFile → List ExtAgg × List PerFile
  | [], byExt, perFile => (byExt, perFile)
  | f :: rest, byExt, perFile =>
    let pf := mkPerFile fs f
    analyzeGo fs rest (bumpExt byExt pf) (perFile ++ [pf])

/-- `analyze_files(files)` under filesystem `fs`: returns `(by_ext, per_file)`. -/
def analyzeFiles (fs : List Char → Option (List (List Char)))
    (files : List (List Char)) : List ExtAgg × List PerFile :=
  analyzeGo fs files [] []

/-- Python dict lookup on the insertion-ordered aggregate list. -/
def lookupExt (l : List ExtAgg) (e : List Char) : Option ExtAgg :=
  l.find? (fun a => a.ext == e)

/-- The per-file list of `analyze_files` is the map of `mkPerFile` over the
input files, appended to the accumulator in input order. -/
theorem analyzeGo_perFile (fs : List Char → Option (List (List Char))) :
    ∀ (files : List (List Char)) (byExt : List ExtAgg) (acc : List PerFile),
      (analyzeGo fs files byExt acc).2 = acc ++ files.map (mkPerFile fs) := by
  intro files
  induction files with
  | nil => intro byExt acc; simp [analyzeGo]
  | cons f rest ih =>
    intro byExt acc
    simp [analyzeGo, ih]

/-! ## Lookup lemmas for the per-extension aggregation -/

/-- The per-file records with a given extension. -/
def filterExt (recs : List PerFile) (e : List Char) : List PerFile :=
  recs.filter (fun r => r.ext == e)

/-- The aggregate that the per-file records themselves determine for an
extension: `none` when no record has it, otherwise the record count
together with the three field sums. -/
def aggSpec (recs : List PerFile) (e : List Char) : Option ExtAgg :=
  let rs := filterExt recs e
  if rs.isEmpty then none
  else some { ext := e, file_count := rs.length,
              total_lines := (rs.map PerFile.total_lines).sum,
              comment_lines := (rs.map PerFile.comment_lines).sum,
              function_count := (rs.map PerFile.function_count).sum }

theorem lookupExt_bumpExt_ne (l : List ExtAgg) (pf : PerFile) (e : List Char)
    (h : pf.ext ≠ e) : lookupExt (bumpExt l pf) e = lookupExt l e := by
  have hpe : (pf.ext == e) = false := by simp [h]
  induction l with
  | nil => simp [bumpExt, lookupExt, initAgg, List.find?, hpe]
  | cons a rest ih =>
    by_cases ha : a.ext = pf.ext
    · have hne : (a.ext == e) = false := by simp [ha, h]
      simp [bumpExt, ha, lookupExt, List.find?, addAgg, hne, hpe]
    · simp only [bumpExt, if_neg ha]
      by_cases hae : a.ext = e
      · simp [lookupExt, List.find?, hae]
      · have hne : (a.ext == e) = false := by simp [hae]
        simp only [lookupExt, List.find?, hne] at ih ⊢
        exact ih

theorem lookupExt_bumpExt_self (l : List ExtAgg) (pf : PerFile) :
    lookupExt (bumpExt l pf) pf.ext =
      some ((lookupExt l pf.ext).elim (initAgg pf) (fun a => addAgg a pf)) := by
  induction l with
  | nil => simp [bumpExt, lookupExt, initAgg, List.find?]
  | cons a rest ih =>
    by_cases ha : a.ext = pf.ext
    · have h1 : ((addAgg a pf).ext == pf.ext) = true := by simp [addAgg, ha]
      simp [bumpExt, ha, lookupExt, List.find?, h1]
    · have hne : (a.ext == pf.ext) = false := by simp [ha]
      simp only [bumpExt, if_neg ha, lookupExt, List.find?, hne] at ih ⊢
      exact ih

theorem filterExt_append (recs : List PerFile) (pf : PerFile) (e : List Char) :
    filterExt (recs ++ [pf]) e =
      filterExt recs e ++ (if pf.ext = e then [pf] else []) := by
  by_cases h : pf.ext = e <;> simp [filterExt, List.filter_append, h]

/-- Invariant of the `analyze_files` loop: the aggregate map always agrees
with the aggregate determined by the accumulated per-file records. -/
theorem analyzeGo_byExt_spec (fs : List Char → Option (List (List Char))) :
    ∀ (files : List (List Char)) (byExt : List ExtAgg) (acc : List PerFile),
      (∀ e, lookupExt byExt e = aggSpec acc e) →
      ∀ e, lookupExt (analyzeGo fs files byExt acc).1 e =
            aggSpec (analyzeGo fs files byExt acc).2 e := by
  intro files
  induction files with
  | nil => intro byExt acc h e; exact h e
  | cons f rest ih =>
    intro byExt acc h
    refine ih (bumpExt byExt (mkPerFile fs f)) (acc ++ [mkPerFile fs f]) ?_
    intro e
    set pf := mkPerFile fs f with hpf
    by_cases he : pf.ext = e
    · subst he
      rw [lookupExt_bumpExt_self, h pf.ext]
      simp only [aggSpec, filterExt_append, if_pos rfl]
      by_cases hempty : (filterExt acc pf.ext).isEmpty
      · rw [List.isEmpty_iff] at hempty
        simp [hempty, initAgg]
      · simp only [if_neg hempty]
        have hne : ((filterExt acc pf.ext ++ [pf]).isEmpty) = false := by
          rw [List.isEmpty_eq_false_iff_exists_mem]
          exact ⟨pf, by simp⟩
        simp [hne, addAgg, Option.elim]
    · rw [lookupExt_bumpExt_ne _ _ _ he, h e]
      simp [aggSpec, filterExt_append, he]

/-! ## Claim C6 -/

/-- C6: reading is total (`readLines` is a function, never an exception),
and a file that cannot be read even under the fallback decoding
(`fs f = none`) yields the empty line list, so `analyze_files` still emits
a per-file record for it — with all four metrics zero — instead of
aborting the run. -/
theorem c6_unreadable_zero_record (fs : List Char → Option (List (List Char)))
    (files : List (List Char)) (f : List Char)
    (hmem : f ∈ files) (hf : fs f = none) :
    readLines fs f = [] ∧
    ∃ r ∈ (analyzeFiles fs files).2,
      r.file = f ∧ r.total_lines = 0 ∧ r.comment_lines = 0 ∧
      r.function_count = 0 ∧ r.complexity = 0 := by
  have hlines : readLines fs f = [] := by simp [readLines, hf]
  refine ⟨hlines, mkPerFile fs f, ?_, rfl, ?_, ?_, ?_, ?_⟩
  · rw [analyzeFiles, analyzeGo_perFile]
    simpa using List.mem_map_of_mem (mkPerFile fs) hmem
  · simp [mkPerFile, hlines]
  · simp [mkPerFile, hlines, estimateCommentLines]
  · simp [mkPerFile, hlines, countFunctions, List.intercalate, countPat,
      countPatFuel]
  · simp [mkPerFile, hlines, estimateComplexity]

/-- C6 witness: a one-file run over an unreadable file. -/
theorem c6_unreadable_zero_record_witness :
    readLines (fun _ => none) "bad.py".toList = [] ∧
    ∃ r ∈ (analyzeFiles (fun _ => none) ["bad.py".toList]).2,
      r.file = "bad.py".toList ∧ r.total_lines = 0 ∧ r.comment_lines = 0 ∧
      r.function_count = 0 ∧ r.complexity = 0 :=
  c6_unreadable_zero_record (fun _ => none) ["bad.py".toList]
    ("bad.py".toList) (by simp) rfl

/-! ## Claim C8 -/

/-- Auxiliary congruence: the loop of `analyze_files` reads the filesystem
only at the listed files. -/
theorem analyzeGo_congr (fs₁ fs₂ : List Char → Option (List (List Char))) :
    ∀ (files : List (List Char)) (byExt : List ExtAgg) (acc : List PerFile),
      (∀ f ∈ files, fs₁ f = fs₂ f) →
      analyzeGo fs₁ files byExt acc = analyzeGo fs₂ files byExt acc := by
  intro files
  induction files with
  | nil => intro byExt acc _; rfl
  | cons f rest ih =>
    intro byExt acc h
    have hf : fs₁ f = fs₂ f := h f (by simp)
    have hpf : mkPerFile fs₁ f = mkPerFile fs₂ f := by
      simp [mkPerFile, readLines, hf]
    simp only [analyzeGo, hpf]
    exact ih _ _ (fun g hg => h g (by simp [hg]))

/-- C8: the analysis is deterministic — it is a pure function of the file
list and the file contents, so two runs over filesystems that agree on
every listed file produce identical per-file records and identical
aggregates, in the same order. -/
theorem c8_deterministic (fs₁ fs₂ : List Char → Option (List (List Char)))
    (files : List (List Char)) (h : ∀ f ∈ files, fs₁ f = fs₂ f) :
    analyzeFiles fs₁ files = analyzeFiles fs₂ files :=
  analyzeGo_congr fs₁ fs₂ files [] [] h

/-- C8 witness: two syntactically different filesystems agreeing on the
single listed file give identical analysis results. -/
theorem c8_deterministic_witness :
    analyzeFiles
      (fun p => if p = "a.py".toList then some ["x = 1".toList] else none)
      ["a.py".toList] =
    analyzeFiles
      (fun p => if p = "a.py".toList then some ["x = 1".toList] else some [])
      ["a.py".toList] :=
  c8_deterministic _ _ ["a.py".toList]
    (by intro f hf; rw [List.mem_singleton] at hf; subst hf; simp)

/-! ## Claim C9 -/

/-- C9: the per-extension aggregate of `analyze_files` is a homomorphic
image of the per-file records.  For every extension found in `by_ext`, the
aggregate's file_count is the number of per-file records with that
extension and its total_lines, comment_lines and function_count are the
sums of the corresponding fields over exactly those records; the record
list for that extension is non-empty (no extension appears in `by_ext`
without at least one file), and an extension absent from `by_ext` has no
per-file record. -/
theorem c9_byExt_homomorphism (fs : List Char → Option (List (List Char)))
    (files : List (List Char)) (e : List Char) :
    (∀ a, lookupExt (analyzeFiles fs files).1 e = some a →
        a.ext = e ∧
        a.file_count = (filterExt (analyzeFiles fs files).2 e).length ∧
        a.total_lines =
          ((filterExt (analyzeFiles fs files).2 e).map PerFile.total_lines).sum ∧
        a.comment_lines =
          ((filterExt (analyzeFiles fs files).2 e).map PerFile.comment_lines).sum ∧
        a.function_count =
          ((filterExt (analyzeFiles fs files).2 e).map PerFile.function_count).sum ∧
        filterExt (analyzeFiles fs files).2 e ≠ []) ∧
    (lookupExt (analyzeFiles fs files).1 e = none →
        filterExt (analyzeFiles fs files).2 e = []) := by
  have hinv : ∀ e', lookupExt (analyzeFiles fs files).1 e' =
      aggSpec (analyzeFiles fs files).2 e' := by
    intro e'
    exact analyzeGo_byExt_spec fs files [] []
      (fun _ => by simp [lookupExt, aggSpec, filterExt, List.find?]) e'
  constructor
  · intro a ha
    rw [hinv e] at ha
    by_cases hempty : (filterExt (analyzeFiles fs files).2 e).isEmpty
    · simp [aggSpec, hempty] at ha
    · rw [aggSpec] at ha
      simp only [if_neg hempty, Option.some.injEq] at ha
      subst ha
      refine ⟨rfl, rfl, rfl, rfl, rfl, ?_⟩
      intro hnil
      rw [hnil] at hempty
      exact hempty rfl
  · intro ha
    rw [hinv e] at ha
    by_cases hempty : (filterExt (analyzeFiles fs files).2 e).isEmpty
    · exact List.isEmpty_iff.mp hempty
    · rw [aggSpec] at ha
      simp [if_neg hempty] at ha
      exact ha

/-- Concrete filesystem for the C9 witness: two Python files and one
JavaScript file. -/
def c9fs : List Char → Option (List (List Char)) :=
  fun p =>
    if p = "a.py".toList then some ["x = 1".toList, "# note".toList]
    else some ["// c".toList]

/-- Concrete file list for the C9 witness. -/
def c9files : List (List Char) :=
  ["a.py".toList, "b.js".toList, "c.py".toList]

/-- C9 witness: on the concrete three-file run, the `.py` aggregate equals
the sums over the two `.py` records, and the absent `.rs` extension has no
per-file record. -/
theorem c9_byExt_homomorphism_witness :
    ((⟨".py".toList, 2, 3, 1, 0⟩ : ExtAgg).ext = ".py".toList ∧
     (⟨".py".toList, 2, 3, 1, 0⟩ : ExtAgg).file_count =
       (filterExt (analyzeFiles c9fs c9files).2 ".py".toList).length ∧
     (⟨".py".toList, 2, 3, 1, 0⟩ : ExtAgg).total_lines =
       ((filterExt (analyzeFiles c9fs c9files).2 ".py".toList).map
         PerFile.total_lines).sum ∧
     (⟨".py".toList, 2, 3, 1, 0⟩ : ExtAgg).comment_lines =
       ((filterExt (analyzeFiles c9fs c9files).2 ".py".toList).map
         PerFile.comment_lines).sum ∧
     (⟨".py".toList, 2, 3, 1, 0⟩ : ExtAgg).function_count =
       ((filterExt (analyzeFiles c9fs c9files).2 ".py".toList).map
         PerFile.function_count).sum ∧
     filterExt (analyzeFiles c9fs c9files).2 ".py".toList ≠ []) ∧
    filterExt (analyzeFiles c9fs c9files).2 ".rs".toList = [] :=
  ⟨(c9_byExt_homomorphism c9fs c9files (".py".toList)).1
      ⟨".py".toList, 2, 3, 1, 0⟩ (by decide),
   (c9_byExt_homomorphism c9fs c9files (".rs".toList)).2 (by decide)⟩

/-! ## Claim C10 -/

/-- C10: every path returned by `list_changed_files` has a lowercased
suffix contained in the fixed `SUPPORTED_EXTS` allow-list — in particular
the binary/asset suffixes `.zip`, `.png` and `.xlsx` never reach the
classifier, whatever the git diff contains. -/
theorem c10_changed_files_supported (diffOut : List (List Char))
    (exists_ isFile : List Char → Bool) (f : List Char)
    (hf : f ∈ listChangedFiles diffOut exists_ isFile) :
    lowerL (pathSuffix f) ∈ SUPPORTED_EXTS ∧
    lowerL (pathSuffix f) ≠ ".zip".toList ∧
    lowerL (pathSuffix f) ≠ ".png".toList ∧
    lowerL (pathSuffix f) ≠ ".xlsx".toList := by
  simp only [listChangedFiles, List.mem_filter, Bool.and_eq_true] at hf
  have hmem : lowerL (pathSuffix f) ∈ SUPPORTED_EXTS :=
    List.mem_of_elem_eq_true hf.2.1.1
  refine ⟨hmem, ?_, ?_, ?_⟩ <;>
    · intro h
      rw [h] at hmem
      revert hmem
      decide

/-- C10 witness: a concrete diff output containing a supported source file,
a binary asset and a blank line; the returned path `src/app.py` satisfies
the allow-list property. -/
theorem c10_changed_files_supported_witness :
    lowerL (pathSuffix "src/app.py".toList) ∈ SUPPORTED_EXTS ∧
    lowerL (pathSuffix "src/app.py".toList) ≠ ".zip".toList ∧
    lowerL (pathSuffix "src/app.py".toList) ≠ ".png".toList ∧
    lowerL (pathSuffix "src/app.py".toList) ≠ ".xlsx".toList :=
  c10_changed_files_supported
    ["src/app.py".toList, "img/logo.png".toList, "  ".toList]
    (fun _ => true) (fun _ => true) ("src/app.py".toList) (by decide)

/-! ## Contributor workload (codestate/cli.py lines 421-443)

The contributor statistics themselves come from the analyzer; the claims
C4 and C5 are about the score and percentage computation performed in
cli.py, which reads only numeric fields.  Python float arithmetic is
modelled over `ℚ`; the structure carries two further numeric fields of the
stats records (`file_count`, `avg_lines_per_commit`) precisely so that the
theorems show they do not contribute to the score. -/

/-- The numeric fields of one author's statistics record. -/
structure AuthorStat where
  line_count : ℚ
  commit_count : ℚ
  added_lines : ℚ
  deleted_lines : ℚ
  active_days_last_30 : ℚ
  max_file_lines : ℚ
  file_count : ℚ
  avg_lines_per_commit : ℚ

/-- The keys of the `weights` dict (codestate/cli.py lines 421-428). -/
inductive WKey where
  | line_count
  | commit_count
  | added_lines
  | deleted_lines
  | active_days_last_30
  | max_file_lines
deriving DecidableEq

/-- The `weights` dict, in its insertion order. -/
def wWeights : List (WKey × ℚ) :=
  [(.line_count, 0.25), (.commit_count, 0.20), (.added_lines, 0.25),
   (.deleted_lines, 0.15), (.active_days_last_30, 0.05),
   (.max_file_lines, 0.10)]

/-- `float(s.get(f, 0))` for a weighted key. -/
def getW (s : AuthorStat) : WKey → ℚ
  | .line_count => s.line_count
  | .commit_count => s.commit_count
  | .added_lines => s.added_lines
  | .deleted_lines => s.deleted_lines
  | .active_days_last_30 => s.active_days_last_30
  | .max_file_lines => s.max_file_lines

/-- The `_detail_workload_score` loop (codestate/cli.py lines 429-437):
iterate over the weighted keys, accumulating `value * weight`. -/
def detailWorkloadScore (s : AuthorStat) : ℚ :=
  wWeights.foldl (fun acc kw => acc + getW s kw.1 * kw.2) 0

/-- `total_score` (codestate/cli.py line 438). -/
def totalScore (stats : List AuthorStat) : ℚ :=
  (stats.map detailWorkloadScore).sum

/-- The numeric content of `workload_percent` (codestate/cli.py lines
439-443, before the one-decimal string formatting): the author's share of
the summed score when the total is positive, 0 otherwise. -/
def workloadPercent (stats : List AuthorStat) (s : AuthorStat) : ℚ :=
  if 0 < totalScore stats then detailWorkloadScore s / totalScore stats * 100
  else 0

/-! ## Claim C4 -/

/-- C4: the workload score is exactly the weighted sum
line_count·0.25 + commit_count·0.20 + added_lines·0.25 +
deleted_lines·0.15 + active_days_last_30·0.05 + max_file_lines·0.10.
Because the equation holds for every record — whatever its `file_count`
and `avg_lines_per_commit` — no field outside the six weighted ones
contributes. -/
theorem c4_workload_score (s : AuthorStat) :
    detailWorkloadScore s =
      s.line_count * 0.25 + s.commit_count * 0.20 + s.added_lines * 0.25 +
      s.deleted_lines * 0.15 + s.active_days_last_30 * 0.05 +
      s.max_file_lines * 0.10 := by
  simp [detailWorkloadScore, wWeights, getW]

/-! ## Claim C5 -/

/-- C5: when the summed workload score is positive, each author's
percentage is their score divided by the total, times 100, and the
percentages sum to exactly 100 (a fortiori within half a percentage point
of rounding error, the rounding being the one-decimal display formatting);
when the summed score is 0, every author's percentage is 0. -/
theorem c5_workload_percent (stats : List AuthorStat) :
    (0 < totalScore stats →
      (∀ s ∈ stats, workloadPercent stats s =
        detailWorkloadScore s / totalScore stats * 100) ∧
      (stats.map (workloadPercent stats)).sum = 100) ∧
    (totalScore stats = 0 → ∀ s ∈ stats, workloadPercent stats s = 0) := by
  constructor
  · intro h
    have hT : totalScore stats ≠ 0 := ne_of_gt h
    refine ⟨fun s _ => by simp [workloadPercent, h], ?_⟩
    have hmap : stats.map (workloadPercent stats) =
        stats.map (fun s => detailWorkloadScore s * (100 / totalScore stats)) := by
      refine List.map_congr_left (fun s _ => ?_)
      simp only [workloadPercent, if_pos h]
      ring
    rw [hmap, List.sum_map_mul_right,
      show (stats.map detailWorkloadScore).sum = totalScore stats from rfl]
    field_simp
  · intro h s _
    simp [workloadPercent, h]

/-- Concrete author list for the C5 witness: scores 1 and 3. -/
def c5stats : List AuthorStat :=
  [⟨4, 0, 0, 0, 0, 0, 7, 9⟩, ⟨12, 0, 0, 0, 0, 0, 2, 5⟩]

/-- C5 witness: on the concrete two-author list the total score is
positive and the percentages sum to exactly 100. -/
theorem c5_workload_percent_witness :
    0 < totalScore c5stats ∧
    (c5stats.map (workloadPercent c5stats)).sum = 100 := by
  have h : 0 < totalScore c5stats := by
    norm_num [totalScore, c5stats, detailWorkloadScore, wWeights, getW]
  exact ⟨h, ((c5_workload_percent c5stats).1 h).2⟩

/-! ## Claim C7: the synthetic-file classification property

`total_lines` and `comment_lines` are settled against the source functions
(`analyze_files` sets `total_lines = len(lines)` and
`comment_lines = estimate_comment_lines(ext, lines)`).  The
`blank_lines`/`code_lines` fields belong to the main engine
(`codestate/analyzer.py`), which is not under src/; the classifier that
produces them is therefore modelled from the spec below. -/

/-- The blank/comment/code tallies of the spec's line classifier. -/
structure SpecCounts where
  blank : Nat
  comment : Nat
  code : Nat
deriving DecidableEq

/-- Modelled from the spec: the main engine's line classifier
(`codestate/analyzer.py`, which computes the `blank_lines` and
`code_lines` fields of a FileRecord, is not under src/).  Spec §4.2, for
the C-like comment family (`//` line comments, `/* */` blocks): blank
(whitespace-only) lines are counted separately; in `InBlockComment` every
non-blank line counts as comment, returning to `Normal` when the
block-end token appears on the line; in `Normal` a line starting with the
line-comment token counts as comment(-only), a line starting with the
block-comment-start token and not closed on the same line counts as
comment(-only) and enters `InBlockComment`, and every other non-blank
line counts as code. -/
def specStepC (st : Bool × SpecCounts) (raw : List Char) : Bool × SpecCounts :=
  let s := stripL raw
  if s.isEmpty then (st.1, { st.2 with blank := st.2.blank + 1 })
  else if st.1 then
    (if hasSub "*/".toList s then false else true,
     { st.2 with comment := st.2.comment + 1 })
  else if startsW s ['/', '/'] then
    (st.1, { st.2 with comment := st.2.comment + 1 })
  else if startsW s ['/', '*'] && !(hasSub "*/".toList (s.drop 2)) then
    (true, { st.2 with comment := st.2.comment + 1 })
  else (st.1, { st.2 with code := st.2.code + 1 })

/-- Modelled from the spec: the classifier runs the state machine from
`Normal` with all tallies zero. -/
def specClassifyC (lines : List (List Char)) : SpecCounts :=
  (lines.foldl specStepC (false, ⟨0, 0, 0⟩)).2

/-- A blank (whitespace-only) line. -/
def isBlankLine (s : List Char) : Bool := (stripL s).isEmpty

/-- A single-line comment line of the C family. -/
def isLineCommentC (s : List Char) : Bool := startsW (stripL s) ['/', '/']

/-- A plain code line of the C family: non-blank and starting with no
comment token. -/
def isPlainCodeC (s : List Char) : Bool :=
  !(stripL s).isEmpty && !startsW (stripL s) ['/', '/'] &&
  !startsW (stripL s) ['/', '*'] && !startsW (stripL s) "<!--".toList

/-- A line that is blank, a line comment, or plain code. -/
def isSimpleC (s : List Char) : Bool :=
  isBlankLine s || isLineCommentC s || isPlainCodeC s

theorem startsW_pair_nonempty {a b : Char} {x : List Char}
    (h : startsW x [a, b] = true) : x.isEmpty = false := by
  obtain ⟨t, ht⟩ := isPrefixOf_pair h
  rw [ht]
  rfl

theorem startsW_slashStar_not_slashSlash {x : List Char}
    (h : startsW x ['/', '*'] = true) : startsW x ['/', '/'] = false := by
  obtain ⟨t, ht⟩ := isPrefixOf_pair h
  rw [ht]
  simp [startsW, List.isPrefixOf]

/-- Exactly one of the three simple categories holds for a simple line. -/
theorem simpleC_cases (s : List Char) (h : isSimpleC s = true) :
    (isBlankLine s = true ∧ isLineCommentC s = false ∧ isPlainCodeC s = false) ∨
    (isBlankLine s = false ∧ isLineCommentC s = true ∧ isPlainCodeC s = false) ∨
    (isBlankLine s = false ∧ isLineCommentC s = false ∧ isPlainCodeC s = true) := by
  by_cases hb : isBlankLine s = true
  · left
    have hnil : stripL s = [] := by
      rw [isBlankLine] at hb
      exact List.isEmpty_iff.mp hb
    refine ⟨hb, ?_, ?_⟩
    · rw [isLineCommentC, hnil]; rfl
    · rw [isPlainCodeC] at *
      simp [isBlankLine, hb] at *
      simp [hnil]
  · have hb' : isBlankLine s = false := by simpa using hb
    by_cases hl : isLineCommentC s = true
    · right; left
      refine ⟨hb', hl, ?_⟩
      rw [isPlainCodeC]
      simp [isLineCommentC] at hl
      simp [hl]
    · right; right
      have hl' : isLineCommentC s = false := by simpa using hl
      refine ⟨hb', hl', ?_⟩
      rw [isSimpleC, hb', hl'] at h
      simpa using h

/-- On a simple line the PR reporter's classifier stays in `Normal` and
counts exactly the line-comment lines. -/
theorem eclStep_simpleC (s : List Char) (hs : isSimpleC s = true) (c : Nat) :
    eclStep false (false, c) s =
      (false, c + if isLineCommentC s then 1 else 0) := by
  rcases simpleC_cases s hs with ⟨h1, h2, _⟩ | ⟨h1, h2, _⟩ | ⟨h1, h2, h3⟩
  · rw [isBlankLine] at h1
    simp [eclStep, h1, h2]
  · rw [isBlankLine] at h1
    rw [isLineCommentC] at h2
    simp [eclStep, h1, h2, isLineCommentC]
  · rw [isBlankLine] at h1
    rw [isLineCommentC] at h2
    rw [isPlainCodeC, Bool.and_eq_true, Bool.and_eq_true, Bool.and_eq_true] at h3
    obtain ⟨⟨⟨_, _⟩, hstar⟩, hmarkup⟩ := h3
    simp only [Bool.not_eq_true'] at hstar hmarkup
    have hm : startsW (stripL s) (['<', '!', '-', '-']) = false := hmarkup
    simp [eclStep, h1, h2, hstar, hm, isLineCommentC]

/-- Folding the PR reporter's classifier over simple lines from `Normal`. -/
theorem ecl_fold_simpleC :
    ∀ (ls : List (List Char)), (∀ l ∈ ls, isSimpleC l = true) →
      ∀ c : Nat, ls.foldl (eclStep false) (false, c) =
        (false, c + ls.countP isLineCommentC) := by
  intro ls
  induction ls with
  | nil => intro _ c; simp
  | cons hd tl ih =>
    intro h c
    rw [List.foldl_cons, eclStep_simpleC hd (h hd (by simp))]
    rw [ih (fun l hl => h l (by simp [hl]))]
    have : tl.countP isLineCommentC + (if isLineCommentC hd then 1 else 0) =
        (hd :: tl).countP isLineCommentC := (List.countP_cons _ _ _).symm
    rw [Prod.mk.injEq]
    exact ⟨rfl, by omega⟩

/-- On a simple line the spec classifier stays in `Normal` and counts the
line into exactly its category. -/
theorem specStepC_simpleC (s : List Char) (hs : isSimpleC s = true)
    (k : SpecCounts) :
    specStepC (false, k) s =
      (false,
       { blank := k.blank + (if isBlankLine s then 1 else 0),
         comment := k.comment + (if isLineCommentC s then 1 else 0),
         code := k.code + (if isPlainCodeC s then 1 else 0) }) := by
  rcases simpleC_cases s hs with ⟨h1, h2, h3⟩ | ⟨h1, h2, h3⟩ | ⟨h1, h2, h3⟩
  · simp only [h1, h2, h3, if_true, if_false]
    rw [isBlankLine] at h1
    simp [specStepC, h1]
  · simp only [h1, h2, h3, if_true, if_false]
    rw [isBlankLine] at h1
    rw [isLineCommentC] at h2
    simp [specStepC, h1, h2]
  · simp only [h1, h2, h3, if_true, if_false]
    rw [isBlankLine] at h1
    rw [isLineCommentC] at h2
    have h3' := h3
    rw [isPlainCodeC, Bool.and_eq_true, Bool.and_eq_true, Bool.and_eq_true] at h3'
    obtain ⟨⟨⟨_, _⟩, hstar⟩, _⟩ := h3'
    simp only [Bool.not_eq_true'] at hstar
    simp [specStepC, h1, h2, hstar]

/-- Folding the spec classifier over simple lines from `Normal`. -/
theorem spec_fold_simpleC :
    ∀ (ls : List (List Char)), (∀ l ∈ ls, isSimpleC l = true) →
      ∀ k : SpecCounts, ls.foldl specStepC (false, k) =
        (false, ⟨k.blank + ls.countP isBlankLine,
                 k.comment + ls.countP isLineCommentC,
                 k.code + ls.countP isPlainCodeC⟩) := by
  intro ls
  induction ls with
  | nil => intro _ k; simp
  | cons hd tl ih =>
    intro h k
    rw [List.foldl_cons, specStepC_simpleC hd (h hd (by simp))]
    rw [ih (fun l hl => h l (by simp [hl]))]
    rcases simpleC_cases hd (h hd (by simp)) with ⟨h1, h2, h3⟩ | ⟨h1, h2, h3⟩ |
        ⟨h1, h2, h3⟩ <;>
      simp only [h1, h2, h3, if_true, if_false, List.countP_cons,
        Prod.mk.injEq, SpecCounts.mk.injEq, true_and] <;>
      omega

/-- A simple line is exactly one of the three categories, so the three
category counts partition a simple list. -/
theorem simpleC_partition :
    ∀ (ls : List (List Char)), (∀ l ∈ ls, isSimpleC l = true) →
      ls.length = ls.countP isBlankLine + ls.countP isLineCommentC +
        ls.countP isPlainCodeC := by
  intro ls
  induction ls with
  | nil => intro _; rfl
  | cons hd tl ih =>
    intro h
    have htl := ih (fun l hl => h l (by simp [hl]))
    rcases simpleC_cases hd (h hd (by simp)) with ⟨h1, h2, h3⟩ | ⟨h1, h2, h3⟩ |
        ⟨h1, h2, h3⟩ <;>
      simp [h1, h2, h3, List.countP_cons, List.length_cons] <;>
      omega

theorem eclStep_blockOpen (c : Nat) (b1 : List Char)
    (hb1 : startsW (stripL b1) ['/', '*'] = true) :
    eclStep false (false, c) b1 = (true, c + 1) := by
  have h1 : (stripL b1).isEmpty = false := startsW_pair_nonempty hb1
  have h2 : startsW (stripL b1) ['/', '/'] = false :=
    startsW_slashStar_not_slashSlash hb1
  simp [eclStep, h1, h2, hb1]

theorem eclStep_inBlock_stay (c : Nat) (b2 : List Char)
    (h2ne : (stripL b2).isEmpty = false)
    (h2 : ∀ t ∈ blockEndToks, hasSub t (stripL b2) = false) :
    eclStep false (true, c) b2 = (true, c + 1) := by
  have hany : blockEndToks.any (fun t => hasSub t (stripL b2)) = false := by
    rw [List.any_eq_false]
    intro t ht
    simp [h2 t ht]
  simp [eclStep, h2ne, hany]

theorem hasSub_end_nonempty {b : List Char}
    (h : hasSub "*/".toList (stripL b) = true) : (stripL b).isEmpty = false := by
  cases hstrip : stripL b with
  | nil => rw [hstrip] at h; simp [hasSub] at h
  | cons a t => rfl

theorem eclStep_inBlock_exit (c : Nat) (b3 : List Char)
    (h3 : hasSub "*/".toList (stripL b3) = true) :
    eclStep false (true, c) b3 = (false, c + 1) := by
  have hne := hasSub_end_nonempty h3
  have hany : blockEndToks.any (fun t => hasSub t (stripL b3)) = true :=
    List.any_eq_true.mpr ⟨"*/".toList, by simp [blockEndToks], h3⟩
  simp [eclStep, hne, hany]

theorem specStepC_blockOpen (k : SpecCounts) (b1 : List Char)
    (hb1 : startsW (stripL b1) ['/', '*'] = true)
    (hb1nc : hasSub "*/".toList ((stripL b1).drop 2) = false) :
    specStepC (false, k) b1 = (true, { k with comment := k.comment + 1 }) := by
  have h1 : (stripL b1).isEmpty = false := startsW_pair_nonempty hb1
  have h2 : startsW (stripL b1) ['/', '/'] = false :=
    startsW_slashStar_not_slashSlash hb1
  have hb1nc2 : hasSub ['*', '/'] (List.drop 2 (stripL b1)) = false := hb1nc
  simp [specStepC, h1, h2, hb1, hb1nc2]

theorem specStepC_inBlock_stay (k : SpecCounts) (b2 : List Char)
    (h2ne : (stripL b2).isEmpty = false)
    (h2end : hasSub "*/".toList (stripL b2) = false) :
    specStepC (true, k) b2 = (true, { k with comment := k.comment + 1 }) := by
  have h2end2 : hasSub ['*', '/'] (stripL b2) = false := h2end
  simp [specStepC, h2ne, h2end2]

theorem specStepC_inBlock_exit (k : SpecCounts) (b3 : List Char)
    (h3 : hasSub "*/".toList (stripL b3) = true) :
    specStepC (true, k) b3 = (false, { k with comment := k.comment + 1 }) := by
  have hne := hasSub_end_nonempty h3
  have h3b : hasSub ['*', '/'] (stripL b3) = true := h3
  simp [specStepC, hne, h3b]

/-- C7: for a synthetic file of a C-family extension made of simple lines
(`N` blank, `C` line-comment, `K` plain code, in any arrangement as
`pre`/`post`) with one embedded 3-line block comment, the classification
reports `total_lines = N + C + K + 3`, `blank_lines = N`,
`comment_lines ≥ C + 3` (by the source's `estimate_comment_lines` and by
the spec-modelled classifier alike) and `code_lines = K`.  The
`blank_lines`/`code_lines` fields are those of the spec-modelled engine
classifier `specClassifyC`. -/
theorem c7_synthetic_file (ext : List Char) (pre post : List (List Char))
    (b1 b2 b3 : List Char)
    (hext : (lowerL ext == ".py".toList) = false)
    (hsimple : ∀ l ∈ pre ++ post, isSimpleC l = true)
    (hb1 : startsW (stripL b1) ['/', '*'] = true)
    (hb1nc : hasSub "*/".toList ((stripL b1).drop 2) = false)
    (hb2ne : (stripL b2).isEmpty = false)
    (hb2 : ∀ t ∈ blockEndToks, hasSub t (stripL b2) = false)
    (hb3 : hasSub "*/".toList (stripL b3) = true) :
    (pre ++ b1 :: b2 :: b3 :: post).length =
      (pre ++ post).countP isBlankLine + (pre ++ post).countP isLineCommentC +
      (pre ++ post).countP isPlainCodeC + 3 ∧
    (specClassifyC (pre ++ b1 :: b2 :: b3 :: post)).blank =
      (pre ++ post).countP isBlankLine ∧
    (specClassifyC (pre ++ b1 :: b2 :: b3 :: post)).code =
      (pre ++ post).countP isPlainCodeC ∧
    (pre ++ post).countP isLineCommentC + 3 ≤
      estimateCommentLines ext (pre ++ b1 :: b2 :: b3 :: post) ∧
    (pre ++ post).countP isLineCommentC + 3 ≤
      (specClassifyC (pre ++ b1 :: b2 :: b3 :: post)).comment := by
  have hpre : ∀ l ∈ pre, isSimpleC l = true := fun l hl => hsimple l (by simp [hl])
  have hpost : ∀ l ∈ post, isSimpleC l = true :=
    fun l hl => hsimple l (by simp [hl])
  have hecl : estimateCommentLines ext (pre ++ b1 :: b2 :: b3 :: post) =
      (pre ++ post).countP isLineCommentC + 3 := by
    rw [estimateCommentLines, hext, List.foldl_append,
      ecl_fold_simpleC pre hpre 0, List.foldl_cons, eclStep_blockOpen _ _ hb1,
      List.foldl_cons, eclStep_inBlock_stay _ _ hb2ne hb2, List.foldl_cons,
      eclStep_inBlock_exit _ _ hb3, ecl_fold_simpleC post hpost]
    simp [List.countP_append]
    omega
  have hspec : specClassifyC (pre ++ b1 :: b2 :: b3 :: post) =
      ⟨(pre ++ post).countP isBlankLine,
       (pre ++ post).countP isLineCommentC + 3,
       (pre ++ post).countP isPlainCodeC⟩ := by
    rw [specClassifyC, List.foldl_append, spec_fold_simpleC pre hpre _,
      List.foldl_cons, specStepC_blockOpen _ _ hb1 hb1nc, List.foldl_cons,
      specStepC_inBlock_stay _ _ hb2ne
        (hb2 ("*/".toList) (by simp [blockEndToks])),
      List.foldl_cons, specStepC_inBlock_exit _ _ hb3,
      spec_fold_simpleC post hpost]
    simp [List.countP_append, SpecCounts.mk.injEq]
    omega
  have hlen := simpleC_partition (pre ++ post) hsimple
  refine ⟨?_, ?_, ?_, ?_, ?_⟩
  · simp only [List.length_append, List.length_cons, List.countP_append] at hlen ⊢
    omega
  · rw [hspec]
  · rw [hspec]
  · rw [hecl]
  · rw [hspec]

/-- C7 witness: a concrete `.js` file with 2 blank lines, 2 line-comment
lines and 3 code lines around a 3-line block comment. -/
theorem c7_synthetic_file_witness :
    ("x = 1;".toList ::
        "// a".toList :: "".toList :: "y();".toList ::
        "/* open".toList :: "mid".toList :: "end */".toList ::
        "  ".toList :: "// b".toList :: "z();".toList :: []).length =
      2 + 2 + 3 + 3 ∧
    (specClassifyC
        ("x = 1;".toList ::
          "// a".toList :: "".toList :: "y();".toList ::
          "/* open".toList :: "mid".toList :: "end */".toList ::
          "  ".toList :: "// b".toList :: "z();".toList :: [])).blank = 2 ∧
    (specClassifyC
        ("x = 1;".toList ::
          "// a".toList :: "".toList :: "y();".toList ::
          "/* open".toList :: "mid".toList :: "end */".toList ::
          "  ".toList :: "// b".toList :: "z();".toList :: [])).code = 3 ∧
    2 + 3 ≤ estimateCommentLines ".js".toList
        ("x = 1;".toList ::
          "// a".toList :: "".toList :: "y();".toList ::
          "/* open".toList :: "mid".toList :: "end */".toList ::
          "  ".toList :: "// b".toList :: "z();".toList :: []) ∧
    2 + 3 ≤ (specClassifyC
        ("x = 1;".toList ::
          "// a".toList :: "".toList :: "y();".toList ::
          "/* open".toList :: "mid".toList :: "end */".toList ::
          "  ".toList :: "// b".toList :: "z();".toList :: [])).comment := by
  have h := c7_synthetic_file ".js".toList
    ["x = 1;".toList, "// a".toList, "".toList, "y();".toList]
    ["  ".toList, "// b".toList, "z();".toList]
    ("/* open".toList) ("mid".toList) ("end */".toList)
    (by decide) (by decide) (by decide) (by decide) (by decide) (by decide)
    (by decide)
  exact h

end CodeState
